import Mathlib

/-!
Verification of the Into dataflow pipeline engine against its specification.

The development shallowly embeds the parts of the source relevant to the
claims: the operation lifecycle state machine and the synchronous processor
(declared in src/ydin/PiiSimpleProcessor.h; the implementation file is not part
of src/, so those transitions are modelled from the spec), the flow-controller
readiness rule, the type dispatch of PiiHistogramOperation::process and
PiiEdgeDetector::process, and PiiImage::createRoiMask from
src/plugins/image/PiiRoi.cc.
-/

set_option autoImplicit false

namespace Into

/-- Lifecycle states of an operation (spec section 4.1, PiiOperation::State). -/
inductive State where
  | Stopped
  | Starting
  | Running
  | Pausing
  | Paused
  | Stopping
  | Interrupted
deriving DecidableEq, Repr

/-- An object travelling through a socket: a control tag (SyncStart, a pause tag,
a stop tag) or a data item. Control tags are a disjoint range of type tags and
are never reinterpreted as data. -/
inductive Item where
  | syncStart
  | pauseTag
  | stopTag
  | dataItem (n : Nat)
deriving DecidableEq, Repr

/-- PiiYdin::isControlType: control tags are disjoint from data values. -/
def Item.isControl : Item → Bool
  | .dataItem _ => false
  | _ => true

namespace PiiSimpleProcessor

/-- Modelled from the spec: the body of PiiSimpleProcessor::wait is not under
src/; its declaration in src/ydin/PiiSimpleProcessor.h is documented as
"Returns true." — waiting on the synchronous processor always succeeds at once.
The unsigned long time argument is ignored. -/
def wait (_time : Nat) : Bool := true

/-- The default value of the time argument of wait: ULONG_MAX on a 64-bit
platform. -/
def defaultWaitTime : Nat := 2 ^ 64 - 1

end PiiSimpleProcessor

/-- Modelled from the spec: the configuration of one operation as its processor
sees it — how many connected non-optional inputs it has and how many outputs.
(PiiSimpleProcessor.cc and the PiiDefaultOperation lifecycle code are not under
src/.) -/
structure OpConfig where
  connectedInputs : Nat
  numOutputs : Nat
deriving DecidableEq, Repr

/-- Modelled from the spec: the run-time state of one operation — its lifecycle
state, how many inputs have delivered a pause (resp. stop) tag while waiting
for quiescence, whether a processing step is in flight (the _bProcessing member
of src/ydin/PiiSimpleProcessor.h), and the emission trace of every output with
the newest item first. -/
structure OpState where
  st : State
  pauseTagsSeen : Nat
  stopTagsSeen : Nat
  processing : Bool
  outputs : List (List Item)
deriving DecidableEq, Repr

/-- The initial state: Stopped, no tags seen, no step in flight, empty traces. -/
def initState (cfg : OpConfig) : OpState :=
  ⟨.Stopped, 0, 0, false, List.replicate cfg.numOutputs []⟩

/-- Emit the same tag on every output (traces keep the newest item first). -/
def emitAll (it : Item) (outs : List (List Item)) : List (List Item) :=
  outs.map fun tr => it :: tr

/-- Emit an item on output i (traces keep the newest item first). -/
def emitAt (outs : List (List Item)) (i : Nat) (it : Item) : List (List Item) :=
  outs.set i (it :: outs.getD i [])

/-- Modelled from the spec: the state produced by interrupt() — an immediate,
unconditional move to Interrupted (or Stopped if the operation was already
idle, that is, already Stopped), with an in-flight step left to run to
completion. -/
def interruptTarget (s : OpState) : OpState :=
  { s with st := if s.st = State.Stopped then State.Stopped else State.Interrupted }

/-- Modelled from the spec: one atomic transition of the operation lifecycle
(spec section 4.1); the processor implementation is not under src/. start()
moves Stopped to Starting; the start completes by emitting a SyncStart tag on
every output and moving to Running; data items are emitted only while Running;
pause() and stop() either wait for a tag from every connected input
(quiescence) before emitting their tags, or act immediately when the operation
has no connected inputs; interrupt() is always enabled and moves to
interruptTarget. -/
inductive Step (cfg : OpConfig) : OpState → OpState → Prop where
  | startCall (s : OpState) :
      s.st = State.Stopped →
      Step cfg s { s with st := State.Starting }
  | startComplete (s : OpState) :
      s.st = State.Starting →
      Step cfg s { s with st := State.Running, outputs := emitAll .syncStart s.outputs }
  | emitData (s : OpState) (i n : Nat) :
      s.st = State.Running → i < s.outputs.length →
      Step cfg s { s with outputs := emitAt s.outputs i (.dataItem n) }
  | beginStep (s : OpState) :
      s.st = State.Running → s.processing = false →
      Step cfg s { s with processing := true }
  | endStep (s : OpState) :
      s.processing = true →
      Step cfg s { s with processing := false }
  | pauseCallWaiting (s : OpState) :
      s.st = State.Running → 0 < cfg.connectedInputs →
      Step cfg s { s with st := State.Pausing, pauseTagsSeen := 0 }
  | pauseTagArrives (s : OpState) :
      s.st = State.Pausing → s.pauseTagsSeen < cfg.connectedInputs →
      Step cfg s { s with pauseTagsSeen := s.pauseTagsSeen + 1 }
  | pauseComplete (s : OpState) :
      s.st = State.Pausing → s.pauseTagsSeen = cfg.connectedInputs →
      Step cfg s { s with st := State.Paused, outputs := emitAll .pauseTag s.outputs }
  | pauseCallImmediate (s : OpState) :
      s.st = State.Running → cfg.connectedInputs = 0 →
      Step cfg s { s with st := State.Paused, outputs := emitAll .pauseTag s.outputs }
  | stopCallWaiting (s : OpState) :
      s.st = State.Running → 0 < cfg.connectedInputs →
      Step cfg s { s with st := State.Stopping, stopTagsSeen := 0 }
  | stopTagArrives (s : OpState) :
      s.st = State.Stopping → s.stopTagsSeen < cfg.connectedInputs →
      Step cfg s { s with stopTagsSeen := s.stopTagsSeen + 1 }
  | stopComplete (s : OpState) :
      s.st = State.Stopping → s.stopTagsSeen = cfg.connectedInputs →
      Step cfg s { s with st := State.Stopped, outputs := emitAll .stopTag s.outputs }
  | stopCallImmediate (s : OpState) :
      s.st = State.Running → cfg.connectedInputs = 0 →
      Step cfg s { s with st := State.Stopped, outputs := emitAll .stopTag s.outputs }
  | interruptCall (s : OpState) :
      Step cfg s (interruptTarget s)

/-- States of the lifecycle model reachable from the initial Stopped state. -/
inductive Reachable (cfg : OpConfig) : OpState → Prop where
  | init : Reachable cfg (initState cfg)
  | next {s t : OpState} : Reachable cfg s → Step cfg s t → Reachable cfg t

/-- On a newest-first output trace, every data item was emitted after a
SyncStart tag: whenever the trace splits around a data item, a SyncStart occurs
among the older items. -/
def dataAfterSync (tr : List Item) : Prop :=
  ∀ pre n post, tr = pre ++ Item.dataItem n :: post → Item.syncStart ∈ post

/-- The invariant carrying the SyncStart-before-data property: while Running,
every output has already carried a SyncStart tag, and on every output each data
item is preceded by one. -/
def lifecycleInv (s : OpState) : Prop :=
  (s.st = State.Running → ∀ tr ∈ s.outputs, Item.syncStart ∈ tr) ∧
  (∀ tr ∈ s.outputs, dataAfterSync tr)

/-- An input socket as the flow controller sees it: whether it is connected,
whether it is optional, its synchronization group, and its queue of buffered
objects (oldest first). -/
structure InSocket where
  connected : Bool
  optionalInput : Bool
  groupId : Nat
  queue : List Item
deriving DecidableEq, Repr

/-- Some connected socket has a control tag as its first queued object (compare
PiiDebugOperation::Controller::prepareProcess inspecting queuedType(0)). -/
def hasQueuedControl (ss : List InSocket) : Bool :=
  ss.any fun s =>
    s.connected &&
      (match s.queue with
       | it :: _ => it.isControl
       | [] => false)

/-- Group g contains at least one connected non-optional socket. -/
def groupActive (ss : List InSocket) (g : Nat) : Bool :=
  ss.any fun s => s.groupId == g && s.connected && !s.optionalInput

/-- Every connected socket of group g has at least one queued object. -/
def groupFull (ss : List InSocket) (g : Nat) : Bool :=
  ss.all fun s => !(s.groupId == g && s.connected) || !s.queue.isEmpty

/-- For every group that has at least one connected non-optional socket, every
connected socket of that group has a queued object. -/
def allActiveGroupsFull (ss : List InSocket) : Bool :=
  ss.all fun s => !(s.connected && !s.optionalInput) || groupFull ss s.groupId

/-- Modelled from the spec: the readiness rule of the flow controller
(PiiDefaultFlowController / PiiOneInputFlowController are not under src/) — a
processing step is ready when a control tag is queued (control tags take
priority, so pause and stop propagate promptly) or when every group with a
connected non-optional socket has an object queued on each of its connected
sockets. -/
def prepareProcess (ss : List InSocket) : Bool :=
  hasQueuedControl ss || allActiveGroupsFull ss

/-- The input sockets of PiiHistogramOperation as configured in its constructor
(src/modules/image/plugin/PiiHistogramOperation.cc): a connected "image" input
and an optional "roi" input, here left unconnected, both in group 0. The image
input holds queue q. -/
def histogramInputs (q : List Item) : List InSocket :=
  [⟨true, false, 0, q⟩, ⟨false, true, 0, []⟩]

/-- Modelled from the spec: the state of an operation driven by the synchronous
processor — its input sockets and the number of processing steps run so far. -/
structure SyncOpState where
  sockets : List InSocket
  stepsRun : Nat
deriving DecidableEq, Repr

/-- Append a freshly delivered object to the queue of socket i. -/
def enqueueAt : List InSocket → Nat → Item → List InSocket
  | [], _, _ => []
  | s :: ss, 0, it => { s with queue := s.queue ++ [it] } :: ss
  | s :: ss, i + 1, it => s :: enqueueAt ss i it

/-- One processing step consumes the first queued object of every connected
socket. -/
def consumeFronts (ss : List InSocket) : List InSocket :=
  ss.map fun s => if s.connected then { s with queue := s.queue.tail } else s

/-- Modelled from the spec: PiiSimpleProcessor::tryToReceive (declared in
src/ydin/PiiSimpleProcessor.h, the body is not under src/) — the delivered
object is queued on the receiving socket, PiiFlowController::prepareProcess()
is queried synchronously, and if a step is ready the parent operation's
process() runs before the call returns, in the delivering producer's thread.
The returned state already contains the effect of that step. -/
def tryToReceive (s : SyncOpState) (i : Nat) (it : Item) : SyncOpState :=
  let ss := enqueueAt s.sockets i it
  if prepareProcess ss then ⟨consumeFronts ss, s.stepsRun + 1⟩
  else ⟨ss, s.stepsRun⟩

/-- A delivery event: some producer delivers an object to a connected input
socket. This is the only way the synchronous processor is ever invoked. -/
def Delivers (s t : SyncOpState) : Prop :=
  ∃ i it sock, s.sockets.get? i = some sock ∧ sock.connected = true ∧
    t = tryToReceive s i it

/-- Modelled from the spec: an operation instance as observed by the producer
threads delivering to it — the _bProcessing flag of
src/ydin/PiiSimpleProcessor.h and the list of threads currently inside the
processing step. -/
structure MutexState where
  bProcessing : Bool
  inStep : List Nat
deriving DecidableEq, Repr

/-- Modelled from the spec: interleaved delivery events under the operation's
state mutex (_pStateMutex in src/ydin/PiiSimpleProcessor.h). A delivering
thread atomically checks _bProcessing: if it is clear the thread sets it and
enters the processing step, otherwise the object is only queued; a thread
leaving the step clears the flag. -/
inductive MStep : MutexState → MutexState → Prop where
  | enterStep (s : MutexState) (t : Nat) :
      s.bProcessing = false → MStep s ⟨true, t :: s.inStep⟩
  | queueOnly (s : MutexState) (t : Nat) :
      s.bProcessing = true → MStep s s
  | leaveStep (s : MutexState) (t : Nat) :
      t ∈ s.inStep → MStep s ⟨false, s.inStep.erase t⟩

/-- Mutex states reachable from the idle initial state. -/
inductive MReachable : MutexState → Prop where
  | init : MReachable ⟨false, []⟩
  | next {s t : MutexState} : MReachable s → MStep s t → MReachable t

/-- The mutual-exclusion invariant: when no step is marked in flight no thread
is inside the step, and never more than one thread is inside the step. -/
def mutexInv (s : MutexState) : Prop :=
  (s.bProcessing = false → s.inStep = []) ∧ s.inStep.length ≤ 1

/-- Type tags of PiiVariant payloads relevant to the processing steps under
verification (PiiYdin type ids). -/
inductive TypeTag where
  | CharMatrix
  | ShortMatrix
  | IntMatrix
  | Int64Matrix
  | UnsignedCharMatrix
  | UnsignedShortMatrix
  | UnsignedIntMatrix
  | UnsignedInt64Matrix
  | FloatMatrix
  | DoubleMatrix
  | BoolMatrix
  | UnsignedCharColorMatrix
  | UnsignedCharColor4Matrix
  | UnsignedShortColorMatrix
  | IntColorMatrix
  | FloatColorMatrix
  | IntScalar
  | DoubleScalar
  | QStringType
  | InvalidType
deriving DecidableEq, Repr

/-- Modelled from the spec: the case list of the PII_INT_GRAY_IMAGE_CASES macro
(PiiYdinTypes.h is not under src/) — the eight integer gray-level matrix
types. -/
def isIntGrayImageType : TypeTag → Bool
  | .CharMatrix | .ShortMatrix | .IntMatrix | .Int64Matrix
  | .UnsignedCharMatrix | .UnsignedShortMatrix
  | .UnsignedIntMatrix | .UnsignedInt64Matrix => true
  | _ => false

/-- Modelled from the spec: the case list of the PII_INT_COLOR_IMAGE_CASES
macro (PiiYdinTypes.h is not under src/) — the integer-channel color matrix
types. -/
def isIntColorImageType : TypeTag → Bool
  | .UnsignedCharColorMatrix | .UnsignedCharColor4Matrix
  | .UnsignedShortColorMatrix | .IntColorMatrix => true
  | _ => false

/-- The failure raised by PII_THROW_UNKNOWN_TYPE(socket): an unsupported-type
failure naming the offending input socket. -/
structure UnknownTypeFailure where
  socketName : String
deriving DecidableEq, Repr

/-- PiiHistogramOperation::process
(src/modules/image/plugin/PiiHistogramOperation.cc): integer gray images are
handled by GrayHistogram, whose send() emits the histogram on outputs 0, 1 and
2; integer color images by ColorHistogram, whose send() emits one histogram per
connected output (baCalculate[i] = outputAt(i)->isConnected()); any other type
tag throws PII_THROW_UNKNOWN_TYPE(d->pImageInput), and the image input is named
"image" in the constructor. The result lists the output indices emitted to, in
emission order. -/
def histogramProcess (outConnected : List Bool) (obj : TypeTag) :
    Except UnknownTypeFailure (List Nat) :=
  if isIntGrayImageType obj then .ok [0, 1, 2]
  else if isIntColorImageType obj then
    .ok ((List.range 3).filter fun i => outConnected.getD i false)
  else .error ⟨"image"⟩

/-- PiiEdgeDetector::process (second part of src/ydin/PiiSimpleProcessor.h):
integer gray images go to detectIntEdges, FloatMatrixType to detectFloatEdges,
any other type tag throws PII_THROW_UNKNOWN_TYPE(inputAt(0)); the single input
is named "image" in the constructor. detectEdges emits the magnitude on output
1, the edges on output 0, and the direction on output 2 when it is
connected. -/
def edgeDetectorProcess (directionConnected : Bool) (obj : TypeTag) :
    Except UnknownTypeFailure (List Nat) :=
  if isIntGrayImageType obj then
    .ok ([1, 0] ++ if directionConnected then [2] else [])
  else if obj = TypeTag.FloatMatrix then
    .ok ([1, 0] ++ if directionConnected then [2] else [])
  else .error ⟨"image"⟩

/-- PiiRectangle<int> as stored one per matrix row (x, y, width, height), from
the usage in src/plugins/image/PiiRoi.cc. -/
structure PiiRectangle where
  x : Int
  y : Int
  width : Int
  height : Int
deriving DecidableEq, Repr

/-- Cell (i, j) of the mask (row i, column j) lies inside the rectangle. -/
def coversCell (rect : PiiRectangle) (i j : Nat) : Bool :=
  rect.y ≤ (i : Int) && (i : Int) < rect.y + rect.height &&
  rect.x ≤ (j : Int) && (j : Int) < rect.x + rect.width

/-- The bounds test of PiiImage::createRoiMask, in source order: the rectangle
starts inside the mask, has positive width and height, and ends inside the
mask. -/
def rectInside (rows columns : Nat) (rect : PiiRectangle) : Bool :=
  rect.x ≥ 0 && rect.x < (columns : Int) &&
  rect.y ≥ 0 && rect.y < (rows : Int) &&
  rect.width > 0 && rect.height > 0 &&
  rect.x + rect.width ≤ (columns : Int) &&
  rect.y + rect.height ≤ (rows : Int)

/-- result(rect.y, rect.x, rect.height, rect.width) = true: every cell of the
rectangle becomes true, all other cells keep their value. -/
def setRegion (m : Nat → Nat → Bool) (rect : PiiRectangle) : Nat → Nat → Bool :=
  fun i j => if coversCell rect i j then true else m i j

/-- PiiImage::createRoiMask from src/plugins/image/PiiRoi.cc. The C++ loop is
`for (int r = 0; r < rows; ++r)` over the row count of the MASK, and each
iteration reads `rectangles.rowAs<PiiRectangle<int>>(r)`; reading a row that
does not exist in the rectangles matrix is an out-of-bounds access in the C++
and is modelled as none. -/
def createRoiMask (rows columns : Nat) (rectangles : List PiiRectangle) :
    Option (Nat → Nat → Bool) :=
  (List.range rows).foldlM
    (fun m r =>
      match rectangles.get? r with
      | none => none
      | some rect =>
        some (if rectInside rows columns rect then setRegion m rect else m))
    (fun _ _ => false)

/-- The mask described by the claim, for comparison with createRoiMask: a cell
is true exactly when some listed rectangle that lies completely inside the mask
bounds and has positive width and height covers it, every row of the
rectangles matrix being considered. -/
def claimedRoiMask (rows columns : Nat) (rectangles : List PiiRectangle) :
    Nat → Nat → Bool :=
  fun i j =>
    rectangles.any fun rect => rectInside rows columns rect && coversCell rect i j

/-! Helper lemmas. -/

theorem dataAfterSync_nil : dataAfterSync [] := by
  intro pre n post h
  exact absurd h (by simp)

theorem dataAfterSync_cons (x : Item) (tr : List Item)
    (h : dataAfterSync tr)
    (hx : ∀ n, x = Item.dataItem n → Item.syncStart ∈ tr) :
    dataAfterSync (x :: tr) := by
  intro pre n post heq
  cases pre with
  | nil =>
    simp only [List.nil_append] at heq
    injection heq with h1 h2
    rw [← h2]
    exact hx n h1
  | cons y pre2 =>
    injection heq with h1 h2
    exact h pre2 n post h2

theorem dataAfterSync_emitAll {it : Item} (hit : ∀ n, it ≠ Item.dataItem n)
    {outs : List (List Item)} (h : ∀ tr ∈ outs, dataAfterSync tr) :
    ∀ tr ∈ emitAll it outs, dataAfterSync tr := by
  intro tr htr
  rw [emitAll, List.mem_map] at htr
  obtain ⟨tr0, h0, rfl⟩ := htr
  exact dataAfterSync_cons _ _ (h tr0 h0) fun n hn => absurd hn (hit n)

theorem syncStart_mem_emitAll {outs : List (List Item)} :
    ∀ tr ∈ emitAll Item.syncStart outs, Item.syncStart ∈ tr := by
  intro tr htr
  rw [emitAll, List.mem_map] at htr
  obtain ⟨tr0, _, rfl⟩ := htr
  exact List.mem_cons_self _ _

theorem getD_mem_of_lt {outs : List (List Item)} {i : Nat}
    (hi : i < outs.length) : outs.getD i [] ∈ outs := by
  rw [List.getD_eq_getElem outs [] hi]
  exact List.getElem_mem hi

theorem lifecycleInv_step {cfg : OpConfig} {s t : OpState}
    (hstep : Step cfg s t) (ih : lifecycleInv s) : lifecycleInv t := by
  cases hstep with
  | startCall hst =>
    refine ⟨?_, ih.2⟩
    intro hcon
    have h2 : State.Starting = State.Running := hcon
    exact (nomatch h2)
  | startComplete hst =>
    refine ⟨fun _ => syncStart_mem_emitAll, ?_⟩
    exact dataAfterSync_emitAll (by intro n hn; cases hn) ih.2
  | emitData i n hst hi =>
    have hm : s.outputs.getD i [] ∈ s.outputs := getD_mem_of_lt hi
    constructor
    · intro _ tr htr
      rw [emitAt] at htr
      rcases List.mem_or_eq_of_mem_set htr with hmem | heq
      · exact ih.1 hst tr hmem
      · rw [heq]
        exact List.mem_cons_of_mem _ (ih.1 hst _ hm)
    · intro tr htr
      rw [emitAt] at htr
      rcases List.mem_or_eq_of_mem_set htr with hmem | heq
      · exact ih.2 tr hmem
      · rw [heq]
        exact dataAfterSync_cons _ _ (ih.2 _ hm) fun _ _ => ih.1 hst _ hm
  | beginStep hst hp => exact ih
  | endStep hp => exact ih
  | pauseCallWaiting hst hc =>
    refine ⟨?_, ih.2⟩
    intro hcon
    have h2 : State.Pausing = State.Running := hcon
    exact (nomatch h2)
  | pauseTagArrives hst hlt =>
    refine ⟨?_, ih.2⟩
    intro hcon
    have h2 : s.st = State.Running := hcon
    rw [hst] at h2
    exact (nomatch h2)
  | pauseComplete hst heq =>
    refine ⟨?_, dataAfterSync_emitAll (by intro n hn; cases hn) ih.2⟩
    intro hcon
    have h2 : State.Paused = State.Running := hcon
    exact (nomatch h2)
  | pauseCallImmediate hst hc =>
    refine ⟨?_, dataAfterSync_emitAll (by intro n hn; cases hn) ih.2⟩
    intro hcon
    have h2 : State.Paused = State.Running := hcon
    exact (nomatch h2)
  | stopCallWaiting hst hc =>
    refine ⟨?_, ih.2⟩
    intro hcon
    have h2 : State.Stopping = State.Running := hcon
    exact (nomatch h2)
  | stopTagArrives hst hlt =>
    refine ⟨?_, ih.2⟩
    intro hcon
    have h2 : s.st = State.Running := hcon
    rw [hst] at h2
    exact (nomatch h2)
  | stopComplete hst heq =>
    refine ⟨?_, dataAfterSync_emitAll (by intro n hn; cases hn) ih.2⟩
    intro hcon
    have h2 : State.Stopped = State.Running := hcon
    exact (nomatch h2)
  | stopCallImmediate hst hc =>
    refine ⟨?_, dataAfterSync_emitAll (by intro n hn; cases hn) ih.2⟩
    intro hcon
    have h2 : State.Stopped = State.Running := hcon
    exact (nomatch h2)
  | interruptCall =>
    refine ⟨?_, ih.2⟩
    intro hcon
    have h2 : (if s.st = State.Stopped then State.Stopped else State.Interrupted) =
        State.Running := hcon
    by_cases hss : s.st = State.Stopped <;> simp [hss] at h2

theorem reachable_lifecycleInv {cfg : OpConfig} {s : OpState}
    (h : Reachable cfg s) : lifecycleInv s := by
  induction h with
  | init =>
    constructor
    · intro hst
      simp [initState] at hst
    · intro tr htr
      simp only [initState] at htr
      rw [List.eq_of_mem_replicate htr]
      exact dataAfterSync_nil
  | next hr hstep ih => exact lifecycleInv_step hstep ih

theorem allActiveGroupsFull_iff (ss : List InSocket) :
    allActiveGroupsFull ss = true ↔
      ∀ g, groupActive ss g = true → groupFull ss g = true := by
  constructor
  · intro h g hg
    rw [groupActive, List.any_eq_true] at hg
    obtain ⟨s, hs, hcond⟩ := hg
    rw [allActiveGroupsFull, List.all_eq_true] at h
    have h2 := h s hs
    simp only [Bool.and_eq_true, beq_iff_eq] at hcond
    obtain ⟨⟨hgid, hconn⟩, hopt⟩ := hcond
    rw [hconn, hopt] at h2
    simp only [Bool.and_true, Bool.not_true, Bool.false_or] at h2
    rw [hgid] at h2
    exact h2
  · intro h
    rw [allActiveGroupsFull, List.all_eq_true]
    intro s hs
    rw [Bool.or_eq_true]
    by_cases hc : (s.connected && !s.optionalInput) = true
    · refine Or.inr (h s.groupId ?_)
      rw [groupActive, List.any_eq_true]
      refine ⟨s, hs, ?_⟩
      simp only [beq_self_eq_true, Bool.true_and, Bool.and_eq_true] at hc ⊢
      exact hc
    · exact Or.inl (by rw [Bool.not_eq_true']; exact Bool.eq_false_iff.mpr hc)

theorem mutexInv_step {s t : MutexState}
    (hstep : MStep s t) (ih : mutexInv s) : mutexInv t := by
  cases hstep with
  | enterStep t hp =>
    have hnil := ih.1 hp
    refine ⟨fun hcon => (nomatch hcon), ?_⟩
    rw [hnil]
    simp
  | queueOnly t hp => exact ih
  | leaveStep t hmem =>
    have hsingle : s.inStep = [t] := by
      cases hl : s.inStep with
      | nil =>
        rw [hl] at hmem
        simp at hmem
      | cons a l =>
        cases l with
        | nil =>
          rw [hl] at hmem
          simp only [List.mem_singleton] at hmem
          rw [hmem]
        | cons b l2 =>
          exfalso
          have h2 := ih.2
          rw [hl] at h2
          simp at h2
    refine ⟨fun _ => ?_, ?_⟩
    · rw [hsingle, List.erase_cons_head]
    · rw [hsingle, List.erase_cons_head]
      simp

theorem mreachable_mutexInv {s : MutexState} (h : MReachable s) : mutexInv s := by
  induction h with
  | init => exact ⟨fun _ => rfl, by simp⟩
  | next hr hstep ih => exact mutexInv_step hstep ih

/-! Claim theorems. -/

/-- Claim C9: PiiSimpleProcessor::wait(time) returns true for every time value,
including the default ULONG_MAX — waiting on an operation driven by the
synchronous processor always succeeds immediately, whatever the operation's
state. -/
theorem wait_always_returns_true :
    (∀ t : Nat, PiiSimpleProcessor.wait t = true) ∧
    PiiSimpleProcessor.wait PiiSimpleProcessor.defaultWaitTime = true :=
  ⟨fun _ => rfl, rfl⟩

/-- Claim C7: a processing step receiving a Variant whose typeTag it does not
support raises an unsupported-type failure naming the offending input socket
("image" both for PiiHistogramOperation and for PiiEdgeDetector) and emits
nothing in that step. -/
theorem unsupported_type_fails_identifying_socket :
    (∀ (conn : List Bool) (obj : TypeTag),
        isIntGrayImageType obj = false → isIntColorImageType obj = false →
        histogramProcess conn obj = Except.error ⟨"image"⟩ ∧
        ∀ out, histogramProcess conn obj ≠ Except.ok out) ∧
    (∀ (dir : Bool) (obj : TypeTag),
        isIntGrayImageType obj = false → obj ≠ TypeTag.FloatMatrix →
        edgeDetectorProcess dir obj = Except.error ⟨"image"⟩ ∧
        ∀ out, edgeDetectorProcess dir obj ≠ Except.ok out) := by
  constructor
  · intro conn obj h1 h2
    refine ⟨by simp [histogramProcess, h1, h2], ?_⟩
    intro out h
    simp [histogramProcess, h1, h2] at h
  · intro dir obj h1 h2
    refine ⟨by simp [edgeDetectorProcess, h1, h2], ?_⟩
    intro out h
    simp [edgeDetectorProcess, h1, h2] at h

/-- Claim C7 witness: the histogram step on a double matrix and the edge
detector step on a string both fail naming the "image" input. -/
theorem unsupported_type_fails_identifying_socket_witness :
    histogramProcess [true, true, true] TypeTag.DoubleMatrix =
      Except.error ⟨"image"⟩ ∧
    edgeDetectorProcess true TypeTag.QStringType = Except.error ⟨"image"⟩ := by
  have h := unsupported_type_fails_identifying_socket
  exact ⟨(h.1 [true, true, true] TypeTag.DoubleMatrix rfl rfl).1,
         (h.2 true TypeTag.QStringType rfl (by decide)).1⟩

/-- Claim C10: createRoiMask loops over the row count of the mask, not of the
rectangles matrix. With mask size 1-by-3 and the two in-bounds unit rectangles
(0,0,1,1) and (1,0,1,1), cell (0,1) stays false although the second listed
rectangle is inside the bounds and covers it, and the mask the claim describes
marks it true; with mask size 2-by-2 and a single listed rectangle the loop
reads a rectangle row that does not exist. -/
theorem createRoiMask_ignores_rectangles_beyond_mask_rows :
    ((createRoiMask 1 3 [⟨0, 0, 1, 1⟩, ⟨1, 0, 1, 1⟩]).map fun m => m 0 1) =
      some false ∧
    rectInside 1 3 ⟨1, 0, 1, 1⟩ = true ∧
    coversCell ⟨1, 0, 1, 1⟩ 0 1 = true ∧
    claimedRoiMask 1 3 [⟨0, 0, 1, 1⟩, ⟨1, 0, 1, 1⟩] 0 1 = true ∧
    (createRoiMask 2 2 [⟨0, 0, 1, 1⟩]).isNone = true := by
  refine ⟨?_, ?_, ?_, ?_, ?_⟩ <;> decide

/-- Claim C6: the flow controller reports a step ready exactly when a control
tag is queued or every group with a connected non-optional socket has an object
queued on each of its connected sockets; a queued control tag takes priority
even when the all-sockets-ready condition fails; and for the histogram
operation's sockets the optional unconnected roi input never blocks
readiness. -/
theorem step_ready_iff_groups_full_or_control :
    (∀ ss : List InSocket,
        prepareProcess ss = true ↔
          (hasQueuedControl ss = true ∨
            ∀ g, groupActive ss g = true → groupFull ss g = true)) ∧
    (∀ ss : List InSocket, hasQueuedControl ss = true →
        allActiveGroupsFull ss = false → prepareProcess ss = true) ∧
    (∀ q : List Item,
        prepareProcess (histogramInputs (Item.dataItem 0 :: q)) = true) ∧
    prepareProcess (histogramInputs []) = false ∧
    prepareProcess (histogramInputs [Item.pauseTag]) = true := by
  refine ⟨?_, ?_, ?_, by decide, by decide⟩
  · intro ss
    rw [prepareProcess, Bool.or_eq_true, allActiveGroupsFull_iff]
  · intro ss h _
    rw [prepareProcess, Bool.or_eq_true]
    exact Or.inl h
  · intro q
    simp [prepareProcess, histogramInputs, allActiveGroupsFull, groupFull,
      hasQueuedControl, Item.isControl]

/-- Claim C6 witness: a queued pause tag makes the step ready although another
connected non-optional group has an empty queue. -/
theorem step_ready_iff_groups_full_or_control_witness :
    prepareProcess
      [⟨true, false, 0, [Item.pauseTag]⟩, ⟨true, false, 1, []⟩] = true := by
  have h := step_ready_iff_groups_full_or_control
  exact h.2.1 _ (by decide) (by decide)

/-- Claim C5: a delivery to an input socket queues the object, synchronously
queries the flow controller and, when a step is ready, runs the processing step
within the same tryToReceive call — the state returned to the delivering
producer already carries the step's effects; when no step is ready the object
is only queued; and an operation whose sockets are all unconnected (a pure
source) can never be driven by the synchronous processor: no delivery event
applies to it, so no processing step ever runs. -/
theorem sync_delivery_runs_step_inline :
    (∀ (s : SyncOpState) (i : Nat) (it : Item),
        prepareProcess (enqueueAt s.sockets i it) = true →
        tryToReceive s i it =
          ⟨consumeFronts (enqueueAt s.sockets i it), s.stepsRun + 1⟩) ∧
    (∀ (s : SyncOpState) (i : Nat) (it : Item),
        prepareProcess (enqueueAt s.sockets i it) = false →
        tryToReceive s i it = ⟨enqueueAt s.sockets i it, s.stepsRun⟩) ∧
    (∀ s t : SyncOpState, (∀ sock ∈ s.sockets, sock.connected = false) →
        Relation.ReflTransGen Delivers s t → t = s) := by
  refine ⟨?_, ?_, ?_⟩
  · intro s i it h
    simp [tryToReceive, h]
  · intro s i it h
    simp [tryToReceive, h]
  · intro s t hall hrt
    induction hrt with
    | refl => rfl
    | tail hpre hstep ih =>
      rw [ih] at hstep
      obtain ⟨i, it, sock, hget, hconn, _⟩ := hstep
      have hmem := List.get?_mem hget
      rw [hall sock hmem] at hconn
      exact (nomatch hconn)

/-- Claim C5 witness: delivering an object to the image input of a histogram
operation with an empty queue makes the step ready and runs it within the same
call; the reflexive run of a fully unconnected operation leaves it unchanged. -/
theorem sync_delivery_runs_step_inline_witness :
    tryToReceive ⟨histogramInputs [], 0⟩ 0 (Item.dataItem 3) =
      ⟨consumeFronts (enqueueAt (histogramInputs []) 0 (Item.dataItem 3)), 1⟩ ∧
    (⟨[⟨false, true, 0, []⟩], 0⟩ : SyncOpState) = ⟨[⟨false, true, 0, []⟩], 0⟩ := by
  have h := sync_delivery_runs_step_inline
  exact ⟨h.1 ⟨histogramInputs [], 0⟩ 0 (Item.dataItem 3) (by decide),
         h.2.2 ⟨[⟨false, true, 0, []⟩], 0⟩ ⟨[⟨false, true, 0, []⟩], 0⟩
           (by decide) Relation.ReflTransGen.refl⟩

/-- Claim C8: under arbitrary interleaved delivery from any number of producer
threads, in every reachable state at most one thread is inside the operation's
processing step — no two invocations of the step overlap in time. -/
theorem no_two_steps_overlap :
    ∀ s : MutexState, MReachable s →
      s.inStep.length ≤ 1 ∧
      ∀ t1 t2, t1 ∈ s.inStep → t2 ∈ s.inStep → t1 = t2 := by
  intro s h
  have hinv := mreachable_mutexInv h
  refine ⟨hinv.2, ?_⟩
  intro t1 t2 h1 h2
  cases hl : s.inStep with
  | nil =>
    rw [hl] at h1
    simp at h1
  | cons a l =>
    cases l with
    | nil =>
      rw [hl] at h1 h2
      simp only [List.mem_singleton] at h1 h2
      rw [h1, h2]
    | cons b l2 =>
      exfalso
      have h3 := hinv.2
      rw [hl] at h3
      simp at h3

/-- Claim C8 witness: the state with one thread inside the step is reachable
and holds at most one thread. -/
theorem no_two_steps_overlap_witness :
    (⟨true, [7]⟩ : MutexState).inStep.length ≤ 1 := by
  have h := no_two_steps_overlap ⟨true, [7]⟩
    (MReachable.next MReachable.init (MStep.enterStep ⟨false, []⟩ 7 rfl))
  exact h.1

/-- Claim C1: interrupt() is enabled in every lifecycle state and moves the
operation at once to Interrupted — or to Stopped when it was already idle
(Stopped) — without any quiescence condition; the processing flag of an
in-flight step is untouched, so the step runs to completion while the state is
already marked, and from the interrupted state no transition can begin a new
processing step. -/
theorem interrupt_unconditional_immediate (cfg : OpConfig) (s : OpState) :
    Step cfg s (interruptTarget s) ∧
    (s.st = State.Stopped → (interruptTarget s).st = State.Stopped) ∧
    (s.st ≠ State.Stopped → (interruptTarget s).st = State.Interrupted) ∧
    (interruptTarget s).processing = s.processing ∧
    (s.processing = true → s.st = State.Running →
      (interruptTarget s).st = State.Interrupted ∧
      (interruptTarget s).processing = true) ∧
    (∀ t : OpState, Step cfg (interruptTarget s) t →
      (interruptTarget s).processing = false → t.processing = false) := by
  refine ⟨Step.interruptCall s, ?_, ?_, rfl, ?_, ?_⟩
  · intro h
    simp [interruptTarget, h]
  · intro h
    simp [interruptTarget, h]
  · intro hp hr
    constructor
    · simp [interruptTarget, hr]
    · exact hp
  · intro t hstep hp
    cases hstep with
    | startCall h => exact hp
    | startComplete h => exact hp
    | emitData i n h hi => exact hp
    | beginStep h hpr =>
      exfalso
      have h2 : (if s.st = State.Stopped then State.Stopped else State.Interrupted) =
          State.Running := h
      by_cases hss : s.st = State.Stopped <;> simp [hss] at h2
    | endStep hpr => rfl
    | pauseCallWaiting h hc => exact hp
    | pauseTagArrives h hlt => exact hp
    | pauseComplete h heq => exact hp
    | pauseCallImmediate h hc => exact hp
    | stopCallWaiting h hc => exact hp
    | stopTagArrives h hlt => exact hp
    | stopComplete h heq => exact hp
    | stopCallImmediate h hc => exact hp
    | interruptCall => exact hp

/-- Claim C1 witness: interrupting a Running operation with a step in flight
marks it Interrupted at once while the step keeps running. -/
theorem interrupt_unconditional_immediate_witness :
    Step ⟨1, 1⟩ ⟨State.Running, 0, 0, true, [[]]⟩
      (interruptTarget ⟨State.Running, 0, 0, true, [[]]⟩) ∧
    (interruptTarget ⟨State.Running, 0, 0, true, [[]]⟩).st = State.Interrupted ∧
    (interruptTarget ⟨State.Running, 0, 0, true, [[]]⟩).processing = true := by
  have h := interrupt_unconditional_immediate ⟨1, 1⟩ ⟨State.Running, 0, 0, true, [[]]⟩
  have h5 := h.2.2.2.2.1 rfl rfl
  exact ⟨h.1, h5.1, h5.2⟩

/-- Claim C2: pause() on a Running operation with a connected non-optional
input moves it to Pausing and emits nothing; the only transition from Pausing
to Paused is the quiescence completion, which requires the pause tag from every
connected input and emits a Pause tag on every output; and pause() on a
Running operation with no connected inputs emits Pause tags and reaches Paused
immediately. -/
theorem pause_waits_for_quiescence (cfg : OpConfig) (s : OpState) :
    (s.st = State.Running → 0 < cfg.connectedInputs →
      Step cfg s { s with st := State.Pausing, pauseTagsSeen := 0 } ∧
      ({ s with st := State.Pausing, pauseTagsSeen := 0 } : OpState).outputs =
        s.outputs) ∧
    (∀ t : OpState, Step cfg s t → s.st = State.Pausing → t.st = State.Paused →
      s.pauseTagsSeen = cfg.connectedInputs ∧
      t.outputs = emitAll Item.pauseTag s.outputs) ∧
    (s.st = State.Pausing → s.pauseTagsSeen = cfg.connectedInputs →
      Step cfg s { s with st := State.Paused,
                          outputs := emitAll Item.pauseTag s.outputs }) ∧
    (s.st = State.Running → cfg.connectedInputs = 0 →
      Step cfg s { s with st := State.Paused,
                          outputs := emitAll Item.pauseTag s.outputs }) := by
  refine ⟨fun h1 h2 => ⟨Step.pauseCallWaiting s h1 h2, rfl⟩, ?_,
    Step.pauseComplete s, Step.pauseCallImmediate s⟩
  intro t hstep hPausing hPaused
  cases hstep with
  | startCall h =>
    rw [hPausing] at h
    exact (nomatch h)
  | startComplete h =>
    rw [hPausing] at h
    exact (nomatch h)
  | emitData i n h hi =>
    rw [hPausing] at h
    exact (nomatch h)
  | beginStep h hpr =>
    rw [hPausing] at h
    exact (nomatch h)
  | endStep hpr =>
    have h2 : s.st = State.Paused := hPaused
    rw [hPausing] at h2
    exact (nomatch h2)
  | pauseCallWaiting h hc =>
    have h2 : State.Pausing = State.Paused := hPaused
    exact (nomatch h2)
  | pauseTagArrives h hlt =>
    have h2 : s.st = State.Paused := hPaused
    rw [hPausing] at h2
    exact (nomatch h2)
  | pauseComplete h heq => exact ⟨heq, rfl⟩
  | pauseCallImmediate h hc =>
    rw [hPausing] at h
    exact (nomatch h)
  | stopCallWaiting h hc =>
    rw [hPausing] at h
    exact (nomatch h)
  | stopTagArrives h hlt =>
    rw [hPausing] at h
    exact (nomatch h)
  | stopComplete h heq =>
    rw [hPausing] at h
    exact (nomatch h)
  | stopCallImmediate h hc =>
    rw [hPausing] at h
    exact (nomatch h)
  | interruptCall =>
    have h2 : (if s.st = State.Stopped then State.Stopped else State.Interrupted) =
        State.Paused := hPaused
    rw [hPausing] at h2
    simp at h2

/-- Claim C2 witness: a quiescent Pausing operation completes the pause by
emitting a Pause tag, and an inputless Running operation pauses immediately. -/
theorem pause_waits_for_quiescence_witness :
    Step ⟨1, 1⟩ ⟨State.Pausing, 1, 0, false, [[]]⟩
      ⟨State.Paused, 1, 0, false,
        emitAll Item.pauseTag [[]]⟩ ∧
    Step ⟨0, 1⟩ ⟨State.Running, 0, 0, false, [[]]⟩
      ⟨State.Paused, 0, 0, false,
        emitAll Item.pauseTag [[]]⟩ := by
  have h1 := pause_waits_for_quiescence ⟨1, 1⟩ ⟨State.Pausing, 1, 0, false, [[]]⟩
  have h2 := pause_waits_for_quiescence ⟨0, 1⟩ ⟨State.Running, 0, 0, false, [[]]⟩
  exact ⟨h1.2.2.1 rfl rfl, h2.2.2.2 rfl rfl⟩

/-- Claim C3: stop() behaves symmetrically to pause() with Stop tags: on a
Running operation with a connected non-optional input it moves to Stopping and
emits nothing; the only transition from Stopping to Stopped is the quiescence
completion, which requires the stop tag from every connected input and emits a
Stop tag on every output; and stop() on a Running operation with no connected
inputs emits Stop tags and reaches Stopped immediately. -/
theorem stop_waits_for_quiescence (cfg : OpConfig) (s : OpState) :
    (s.st = State.Running → 0 < cfg.connectedInputs →
      Step cfg s { s with st := State.Stopping, stopTagsSeen := 0 } ∧
      ({ s with st := State.Stopping, stopTagsSeen := 0 } : OpState).outputs =
        s.outputs) ∧
    (∀ t : OpState, Step cfg s t → s.st = State.Stopping → t.st = State.Stopped →
      s.stopTagsSeen = cfg.connectedInputs ∧
      t.outputs = emitAll Item.stopTag s.outputs) ∧
    (s.st = State.Stopping → s.stopTagsSeen = cfg.connectedInputs →
      Step cfg s { s with st := State.Stopped,
                          outputs := emitAll Item.stopTag s.outputs }) ∧
    (s.st = State.Running → cfg.connectedInputs = 0 →
      Step cfg s { s with st := State.Stopped,
                          outputs := emitAll Item.stopTag s.outputs }) := by
  refine ⟨fun h1 h2 => ⟨Step.stopCallWaiting s h1 h2, rfl⟩, ?_,
    Step.stopComplete s, Step.stopCallImmediate s⟩
  intro t hstep hStopping hStopped
  cases hstep with
  | startCall h =>
    rw [hStopping] at h
    exact (nomatch h)
  | startComplete h =>
    rw [hStopping] at h
    exact (nomatch h)
  | emitData i n h hi =>
    rw [hStopping] at h
    exact (nomatch h)
  | beginStep h hpr =>
    rw [hStopping] at h
    exact (nomatch h)
  | endStep hpr =>
    have h2 : s.st = State.Stopped := hStopped
    rw [hStopping] at h2
    exact (nomatch h2)
  | pauseCallWaiting h hc =>
    rw [hStopping] at h
    exact (nomatch h)
  | pauseTagArrives h hlt =>
    rw [hStopping] at h
    exact (nomatch h)
  | pauseComplete h heq =>
    rw [hStopping] at h
    exact (nomatch h)
  | pauseCallImmediate h hc =>
    rw [hStopping] at h
    exact (nomatch h)
  | stopCallWaiting h hc =>
    have h2 : State.Stopping = State.Stopped := hStopped
    exact (nomatch h2)
  | stopTagArrives h hlt =>
    have h2 : s.st = State.Stopped := hStopped
    rw [hStopping] at h2
    exact (nomatch h2)
  | stopComplete h heq => exact ⟨heq, rfl⟩
  | stopCallImmediate h hc =>
    rw [hStopping] at h
    exact (nomatch h)
  | interruptCall =>
    have h2 : (if s.st = State.Stopped then State.Stopped else State.Interrupted) =
        State.Stopped := hStopped
    rw [hStopping] at h2
    simp at h2

/-- Claim C3 witness: a quiescent Stopping operation completes the stop by
emitting a Stop tag, and an inputless Running operation stops immediately. -/
theorem stop_waits_for_quiescence_witness :
    Step ⟨1, 1⟩ ⟨State.Stopping, 0, 1, false, [[]]⟩
      ⟨State.Stopped, 0, 1, false,
        emitAll Item.stopTag [[]]⟩ ∧
    Step ⟨0, 1⟩ ⟨State.Running, 0, 0, false, [[]]⟩
      ⟨State.Stopped, 0, 0, false,
        emitAll Item.stopTag [[]]⟩ := by
  have h1 := stop_waits_for_quiescence ⟨1, 1⟩ ⟨State.Stopping, 0, 1, false, [[]]⟩
  have h2 := stop_waits_for_quiescence ⟨0, 1⟩ ⟨State.Running, 0, 0, false, [[]]⟩
  exact ⟨h1.2.2.1 rfl rfl, h2.2.2.2 rfl rfl⟩

/-- Claim C4: start() takes a Stopped operation to Starting; the start
completes by emitting a SyncStart tag on every output and moving the operation
to Running; and in every reachable state, on every output, each data item was
preceded by a SyncStart tag (while Running, every output has already carried
one). -/
theorem start_emits_syncstart_before_data (cfg : OpConfig) (s : OpState) :
    (s.st = State.Stopped → Step cfg s { s with st := State.Starting }) ∧
    (s.st = State.Starting →
      Step cfg s { s with st := State.Running,
                          outputs := emitAll Item.syncStart s.outputs }) ∧
    (Reachable cfg s → ∀ tr ∈ s.outputs, dataAfterSync tr) ∧
    (Reachable cfg s → s.st = State.Running →
      ∀ tr ∈ s.outputs, Item.syncStart ∈ tr) := by
  refine ⟨Step.startCall s, Step.startComplete s, ?_, ?_⟩
  · intro h
    exact (reachable_lifecycleInv h).2
  · intro h hst
    exact (reachable_lifecycleInv h).1 hst

/-- Claim C4 witness: the initial Stopped operation can start, and its empty
output trace satisfies the SyncStart-before-data property. -/
theorem start_emits_syncstart_before_data_witness :
    Step ⟨0, 1⟩ (initState ⟨0, 1⟩) { initState ⟨0, 1⟩ with st := State.Starting } ∧
    dataAfterSync [] := by
  have h := start_emits_syncstart_before_data ⟨0, 1⟩ (initState ⟨0, 1⟩)
  refine ⟨h.1 rfl, ?_⟩
  exact h.2.2.1 Reachable.init [] (by simp [initState])

end Into
